import Mathlib

/-!
Verification of the collaborative puzzle-session engine
(`src/puzzle_one/src/components/CustomCulturalPuzzle.jsx`, which bundles the
`PuzzleGame` component and the `useMultiplayerGame` hook, plus the invite-link
utilities in `src/unnamed/part_001`).

Each definition is a shallow embedding of the corresponding JavaScript
function; JS numbers are idealized as `ℚ`/`ℝ`, timestamps as `ℕ`, fallible
operations as `Option`.  Platform primitives used by the code (the WHATWG
`URL` parser, `encodeURIComponent`/`decodeURIComponent`, the JS `%` operator,
Firebase child-update semantics, React effect scheduling) are modelled
explicitly and are marked as such in their doc comments.
-/

set_option maxHeartbeats 1000000

namespace Puzzle

/-! ### Progress guard (`useMultiplayerGame.updateProgress`, lines 1656-1671,
and the `progress` listener, lines 1485-1488) -/

/-- Embedding of one call of `updateProgress`: the hook reads the currently
stored value and returns without writing when `newProgress <= currentProgress`;
otherwise it writes `newProgress`.  The client-side listener
`setProgress(prev => newProgress > prev ? newProgress : prev)` applies the same
step. -/
def updateProgressStep (current incoming : ℚ) : ℚ :=
  if incoming ≤ current then current else incoming

/-- Stored progress after a sequence of `updateProgress` deliveries, each
applied atomically in delivery order, starting from `init` (the stored value,
`snapshot.val() || 0`). -/
def runProgressUpdates (init : ℚ) (updates : List ℚ) : ℚ :=
  updates.foldl updateProgressStep init

/-! ### Session status operations (`useMultiplayerGame.startGame`,
`pauseGame`, `endGame`, lines 1598-1633) -/

/-- Session status values that appear in the code (`waiting`, `playing`,
`completed` are written by the hook; `paused` appears in the spec's state
machine). -/
inductive SessionStatus
  | waiting
  | playing
  | paused
  | completed
deriving DecidableEq

/-- Session-level fields of `games/{gameId}` touched by the status
operations. -/
structure MPSession where
  status : SessionStatus
  startedAt : Option ℕ
  endedAt : Option ℕ
  winner : Option ℕ
deriving DecidableEq

/-- Embedding of `startGame`: guarded by `if (!gameId || !isHost) return;`,
then unconditionally writes `status: 'playing', startedAt: Date.now()`.  The
current status is never consulted. -/
def startGame (hasGameId isHost : Bool) (now : ℕ) (s : MPSession) : MPSession :=
  if hasGameId && isHost then { s with status := .playing, startedAt := some now } else s

/-- Embedding of `pauseGame`: unconditionally writes `status: 'waiting'`
(note: the written value is `'waiting'`, not `'paused'`, and there is no
guard at all). -/
def pauseGame (s : MPSession) : MPSession :=
  { s with status := .waiting }

/-- Embedding of `endGame`: guarded by `if (!gameId || !isHost) return;`, then
unconditionally writes `status: 'completed', endedAt, winner`. -/
def endGame (hasGameId isHost : Bool) (now : ℕ) (winner : Option ℕ) (s : MPSession) : MPSession :=
  if hasGameId && isHost then
    { s with status := .completed, endedAt := some now, winner := winner }
  else s

/-- Shorthand for a session that has already completed, used to probe the
"completed is terminal" claim. -/
def completedSession : MPSession :=
  { status := .completed, startedAt := some 1, endedAt := some 2, winner := none }

/-! ### Remote completion check (`checkGameCompletion`, lines 1635-1640) -/

/-- One entry of `games/{gameId}/pieces` as read by `checkGameCompletion`
(only `isPlaced` is consulted; `x`, `y` record the synced transform). -/
structure GamePiece where
  x : ℚ
  y : ℚ
  isPlaced : Bool
deriving DecidableEq

/-- Embedding of `checkGameCompletion`: `if (!gameState?.pieces) return false;`
then `allPieces.length > 0 && allPieces.every(piece => piece.isPlaced)`.
`none` models a missing/null `pieces` record, `some l` the list
`Object.values(gameState.pieces)`. -/
def checkGameCompletion (pieces : Option (List GamePiece)) : Bool :=
  match pieces with
  | none => false
  | some allPieces => decide (allPieces.length > 0) && allPieces.all (fun p => p.isPlaced)

/-! ### Presence: leave and disconnect (`useMultiplayerGame` effect,
lines 1428-1514) -/

/-- A record under `games/{gameId}/players/{playerId}`. -/
structure PlayerRecord where
  name : String
  isHost : Bool
  ready : Bool
  isOnline : Bool
  lastActive : ℕ
deriving DecidableEq

/-- Session record under `games/{gameId}` as relevant to presence handling:
players and pieces are keyed child maps, modelled as association lists. -/
structure SessionDB where
  status : SessionStatus
  progress : ℚ
  timer : ℕ
  players : List (String × PlayerRecord)
  pieces : List (String × GamePiece)
deriving DecidableEq

/-- Embedding of the effect cleanup (lines 1496-1507): on explicit leave the
host removes the whole `games/{gameId}` record (`remove(gameRef)`, modelled as
`none`), a guest removes only `games/{gameId}/players/{userId}`
(`remove(userRef)`). -/
def cleanupOnLeave (isHost : Bool) (uid : String) (db : SessionDB) : Option SessionDB :=
  if isHost then none
  else some { db with players := db.players.filter (fun kv => kv.1 != uid) }

/-- The update payload registered by
`onDisconnect(userRef).update({ isOnline: false, lastActive: Date.now() })`
(lines 1447-1450).  `Date.now()` is evaluated when the handler is registered
(at join), so the payload freezes that timestamp. -/
structure OnDisconnectUpdate where
  isOnline : Bool
  lastActive : ℕ
deriving DecidableEq

/-- Building the `onDisconnect` payload at registration time `now`. -/
def registerDisconnectUpdate (now : ℕ) : OnDisconnectUpdate :=
  { isOnline := false, lastActive := now }

/-- Model of the backend applying the registered `onDisconnect` update when an
abrupt disconnect is detected: a child update of `players/{uid}` that merges
the frozen payload into that player's record and touches nothing else. -/
def applyDisconnect (uid : String) (u : OnDisconnectUpdate) (db : SessionDB) : SessionDB :=
  { db with
    players := db.players.map (fun kv =>
      (kv.1, if kv.1 == uid then
        { kv.2 with isOnline := u.isOnline, lastActive := u.lastActive }
      else kv.2)) }

/-- Concrete two-player session used by the disconnect counterexample. -/
def demoGuest : PlayerRecord :=
  { name := "Guest", isHost := false, ready := true, isOnline := true, lastActive := 5 }

/-- Concrete session holding a host and `demoGuest`. -/
def demoDB : SessionDB :=
  { status := .playing
    progress := 50
    timer := 10
    players := [("h", { name := "Host", isHost := true, ready := true, isOnline := true, lastActive := 1 }),
                ("g", demoGuest)]
    pieces := [("p0", { x := 0, y := 0, isPlaced := true })] }

/-! ### Piece geometry and the snap decision (`handleMouseUp`, lines 815-865,
`handleMouseMove`, lines 779-813, `handleResetGame`, lines 438-458). -/

/-- A `THREE.Vector3`, idealized over `ℝ`. -/
structure Vec3 where
  x : ℝ
  y : ℝ
  z : ℝ

/-- Model of `THREE.Vector3.distanceTo`: the 3D Euclidean distance. -/
noncomputable def distanceTo (a b : Vec3) : ℝ :=
  Real.sqrt ((a.x - b.x) ^ 2 + (a.y - b.y) ^ 2 + (a.z - b.z) ^ 2)

/-- Model of JS truncation toward zero (the quotient underlying the `%`
operator). -/
noncomputable def jsTrunc (x : ℝ) : ℤ :=
  if 0 ≤ x then ⌊x⌋ else ⌈x⌉

/-- Model of the JS remainder operator `%`: `x % m = x - m * trunc(x / m)`,
so the result carries the sign of the dividend. -/
noncomputable def jsMod (x m : ℝ) : ℝ :=
  x - m * (jsTrunc (x / m) : ℝ)

/-- The `rotationDiff` value as computed in `handleMouseUp` and `handleMouseMove`:
`Math.abs(piece.rotation.z % (Math.PI * 2))`. -/
noncomputable def rotationDiffOf (rotZ : ℝ) : ℝ :=
  |jsMod rotZ (Real.pi * 2)|

/-- The `isNearCorrectRotation` test:
`rotationDiff < 0.2 || Math.abs(rotationDiff - Math.PI * 2) < 0.2`.  The
tolerance `0.2` (radians) is a hard-coded constant. -/
def isNearCorrectRotation (rotZ : ℝ) : Prop :=
  rotationDiffOf rotZ < 0.2 ∨ |rotationDiffOf rotZ - Real.pi * 2| < 0.2

/-- The client-local state of one dragged piece
(`piece.position`, `piece.rotation.z`, `piece.userData`). -/
structure PieceState where
  position : Vec3
  rotationZ : ℝ
  originalPosition : Vec3
  isPlaced : Bool

/-- The snap test of `handleMouseUp` (lines 831-838):
`isNearCorrectPosition && isNearCorrectRotation` with
`isNearCorrectPosition = originalPos.distanceTo(piece.position) < 0.3`.
Both tolerances are hard-coded; no difficulty setting is consulted. -/
def pieceSnapEligible (p : PieceState) : Prop :=
  distanceTo p.originalPosition p.position < 0.3 ∧ isNearCorrectRotation p.rotationZ

open Classical in
/-- Embedding of the `gameState === 'playing'` branch of `handleMouseUp`
(lines 831-860): an eligible piece is snapped to its target transform
(`handlePieceSnap` finishes with `position.copy(originalPos)` and zero
rotation) and `userData.isPlaced` is set; otherwise the piece is dropped with
`position.z = 0` and `isPlaced` is untouched. -/
noncomputable def handleMouseUpPiece (p : PieceState) : PieceState :=
  if pieceSnapEligible p then
    { p with position := p.originalPosition, rotationZ := 0, isPlaced := true }
  else
    { p with position := { x := p.position.x, y := p.position.y, z := 0 } }

/-- The random offsets drawn by `handleResetGame` for one piece:
`dx, dy` stand for `(Math.random() - 0.5) * 2`, `z` for `Math.random() * 0.5`
and `rot` for `(Math.random() - 0.5) * 0.5`. -/
structure ResetOffsets where
  dx : ℝ
  dy : ℝ
  z : ℝ
  rot : ℝ

/-- Reset of one piece inside `handleResetGame` (lines 446-455): the piece is
re-scattered around its target and `piece.userData.isPlaced = false` is
assigned unconditionally. -/
def resetPiece (r : ResetOffsets) (p : PieceState) : PieceState :=
  { p with
    position := { x := p.originalPosition.x + r.dx, y := p.originalPosition.y + r.dy, z := r.z }
    rotationZ := r.rot
    isPlaced := false }

/-- Embedding of `handleResetGame` over the current piece set
(`puzzlePiecesRef.current.forEach(...)`), with the random draws supplied as
`rs`. -/
def handleResetGame (rs : List ResetOffsets) (ps : List PieceState) : List PieceState :=
  List.zipWith resetPiece rs ps

/-- One drag interaction ending in `handleMouseUp`: `handleMouseDown` refuses
to pick up a placed piece (line 760), otherwise the drag leaves the piece at
`pos`/`rot` and the mouse-up decision runs. -/
noncomputable def dragOp (pos : Vec3) (rot : ℝ) (p : PieceState) : PieceState :=
  if p.isPlaced then p
  else handleMouseUpPiece { p with position := pos, rotationZ := rot }

/-- A sequence of drag interactions applied to one piece. -/
noncomputable def applyDrags (ds : List (Vec3 × ℝ)) (p : PieceState) : PieceState :=
  ds.foldl (fun q d => dragOp d.1 d.2 q) p

/-- Difficulty keys of `DIFFICULTY_SETTINGS` (lines 23-28). -/
inductive DifficultyKey
  | easy
  | medium
  | hard
  | expert
deriving DecidableEq

/-- One entry of `DIFFICULTY_SETTINGS`. -/
structure DifficultySetting where
  gridX : ℕ
  gridY : ℕ
  snapDistance : ℚ
  rotationEnabled : Bool
deriving DecidableEq

/-- Embedding of the `DIFFICULTY_SETTINGS` table (lines 23-28). -/
def DIFFICULTY_SETTINGS : DifficultyKey → DifficultySetting
  | .easy => { gridX := 4, gridY := 3, snapDistance := 0.4, rotationEnabled := false }
  | .medium => { gridX := 5, gridY := 4, snapDistance := 0.3, rotationEnabled := true }
  | .hard => { gridX := 6, gridY := 5, snapDistance := 0.2, rotationEnabled := true }
  | .expert => { gridX := 8, gridY := 6, snapDistance := 0.15, rotationEnabled := true }

/-- A piece dropped at Euclidean distance `0.29` from its target while rotated
by `1` radian. -/
noncomputable def piece029rot1 : PieceState :=
  { position := { x := 0.29, y := 0, z := 0 }
    rotationZ := 1
    originalPosition := { x := 0, y := 0, z := 0 }
    isPlaced := false }

/-- A piece dropped at distance `0.29` with rotation `0`. -/
noncomputable def pieceAt029 : PieceState :=
  { position := { x := 0.29, y := 0, z := 0 }
    rotationZ := 0
    originalPosition := { x := 0, y := 0, z := 0 }
    isPlaced := false }

/-- A piece dropped at distance `0.31` with rotation `0`. -/
noncomputable def pieceAt031 : PieceState :=
  { position := { x := 0.31, y := 0, z := 0 }
    rotationZ := 0
    originalPosition := { x := 0, y := 0, z := 0 }
    isPlaced := false }

/-- A piece that has already been placed (at its target). -/
noncomputable def placedPiece : PieceState :=
  { position := { x := 0, y := 0, z := 0 }
    rotationZ := 0
    originalPosition := { x := 0, y := 0, z := 0 }
    isPlaced := true }

/-! ### Local completion pipeline (`handleMouseUp` placement bookkeeping,
lines 841-849; timer effect, lines 708-720; completion effects at lines
722-730 and 984-1013). -/

/-- The `PuzzleGame` component state relevant to completion handling.
`syncCompletionRuns` counts executions of the `synchronousCompletion` call in
the effect at lines 722-730; `legacyCompletionRuns` counts executions of the
`handlePuzzleCompletion` body in the effect at lines 984-1013 (a signed-in
user is assumed).  Each such execution persists a completion record, computes
achievements and pushes a `completed` status update. -/
structure LocalGame where
  piecesPlaced : List Bool
  completedPieces : ℕ
  totalPieces : ℕ
  progress : ℚ
  isTimerRunning : Bool
  timeElapsed : ℕ
  syncCompletionRuns : ℕ
  legacyCompletionRuns : ℕ
deriving DecidableEq

/-- Events delivered to the component: a drag ending on piece `idx` (with the
geometric snap test of `pieceSnapEligible` already evaluated to
`snapEligible`, see the snap-decision theorems), or one timer tick. -/
inductive GameEvent
  | dragEnd (idx : ℕ) (snapEligible : Bool)
  | timerTick
deriving DecidableEq

/-- State updates of `handleMouseUp` (lines 838-849): only a not-yet-placed
eligible piece flips `isPlaced`, bumps `completedPieces` and recomputes
`progress = (newCount / totalPieces) * 100`.  A duplicate placement event for
an already placed piece changes nothing. -/
def applyDragEnd (i : ℕ) (elig : Bool) (g : LocalGame) : LocalGame :=
  if elig then
    match g.piecesPlaced[i]? with
    | some false =>
      let newCount := g.completedPieces + 1
      { g with
        piecesPlaced := g.piecesPlaced.set i true
        completedPieces := newCount
        progress := (newCount : ℚ) / (g.totalPieces : ℚ) * 100 }
    | _ => g
  else g

/-- The timer interval (lines 708-720): `timeElapsed` advances only while the
timer runs. -/
def applyTick (g : LocalGame) : LocalGame :=
  if g.isTimerRunning then { g with timeElapsed := g.timeElapsed + 1 } else g

/-- Model of React effect scheduling after a state commit from `prev` to
`next`: the effect at lines 722-730 (dependency `[progress]`) runs when
`progress` changed, and its body, guarded by `progress === 100`, stops the
timer and runs `synchronousCompletion`; the effect at lines 984-1013
(dependencies `[progress, startTime, difficulty, image, timeElapsed,
totalPieces, completedPieces]`) runs when any of its tracked dependencies
changed, and its body is guarded by `progress === 100`.  The two bodies are
recorded independently: the first body only stops the timer and counts, and
does not change any dependency read by the second guard, so the sequential
execution order of the two effects is immaterial. -/
def runEffects (prev next : LocalGame) : LocalGame :=
  { next with
    isTimerRunning :=
      if next.progress ≠ prev.progress ∧ next.progress = 100 then false
      else next.isTimerRunning
    syncCompletionRuns :=
      if next.progress ≠ prev.progress ∧ next.progress = 100 then
        next.syncCompletionRuns + 1
      else next.syncCompletionRuns
    legacyCompletionRuns :=
      if (next.progress ≠ prev.progress ∨ next.timeElapsed ≠ prev.timeElapsed ∨
          next.completedPieces ≠ prev.completedPieces ∨ next.totalPieces ≠ prev.totalPieces) ∧
          next.progress = 100 then
        next.legacyCompletionRuns + 1
      else next.legacyCompletionRuns }

/-- One delivered event followed by the effect pass. -/
def stepGame (g : LocalGame) (e : GameEvent) : LocalGame :=
  match e with
  | .dragEnd i elig => runEffects g (applyDragEnd i elig g)
  | .timerTick => runEffects g (applyTick g)

/-- A whole session: events folded from the freshly started state. -/
def runGame (g : LocalGame) (es : List GameEvent) : LocalGame :=
  es.foldl stepGame g

/-- The component state right after a puzzle with `n` pieces starts
(`createPuzzlePieces` + `handleImageUpload`): nothing placed, progress `0`,
timer running. -/
def initGame (n : ℕ) : LocalGame :=
  { piecesPlaced := List.replicate n false
    completedPieces := 0
    totalPieces := n
    progress := 0
    isTimerRunning := true
    timeElapsed := 0
    syncCompletionRuns := 0
    legacyCompletionRuns := 0 }

/-! ### Invite links (`src/unnamed/part_001`) together with the platform
primitives they call (WHATWG `URL` parsing and
`encodeURIComponent`/`decodeURIComponent`). -/

/-- Model of the platform: characters that `encodeURIComponent` leaves
unescaped — ASCII alphanumerics and the marks `-_.!~*'()` (the quote written
via its code point). -/
def isUnreservedChar (c : Char) : Bool :=
  c.isAlphanum || c == '-' || c == '_' || c == '.' || c == '!' || c == '~' ||
    c == '*' || c == Char.ofNat 39 || c == '(' || c == ')'

/-- Model of the platform: the UTF-8 bytes of one scalar value. -/
def utf8Bytes (n : ℕ) : List ℕ :=
  if n < 0x80 then [n]
  else if n < 0x800 then [0xC0 + n / 0x40, 0x80 + n % 0x40]
  else if n < 0x10000 then
    [0xE0 + n / 0x1000, 0x80 + n / 0x40 % 0x40, 0x80 + n % 0x40]
  else
    [0xF0 + n / 0x40000, 0x80 + n / 0x1000 % 0x40, 0x80 + n / 0x40 % 0x40, 0x80 + n % 0x40]

/-- Model of the platform: one uppercase hex digit as emitted by percent
escapes. -/
def hexDigitChar (n : ℕ) : Char :=
  match n with
  | 0 => '0' | 1 => '1' | 2 => '2' | 3 => '3' | 4 => '4'
  | 5 => '5' | 6 => '6' | 7 => '7' | 8 => '8' | 9 => '9'
  | 10 => 'A' | 11 => 'B' | 12 => 'C' | 13 => 'D' | 14 => 'E' | _ => 'F'

/-- Model of the platform: the `%XX` escape of one byte. -/
def pctEncodeByte (b : ℕ) : List Char :=
  ['%', hexDigitChar (b / 16), hexDigitChar (b % 16)]

/-- Model of the platform: `encodeURIComponent` on one character. -/
def encodeChar (c : Char) : List Char :=
  if isUnreservedChar c then [c]
  else ((utf8Bytes c.toNat).map pctEncodeByte).flatten

/-- Model of the platform: `encodeURIComponent`. -/
def encodeURIComponent (s : String) : String :=
  String.mk ((s.data.map encodeChar).flatten)

/-- Model of the platform: the numeric value of a hex digit. -/
def hexVal (c : Char) : Option ℕ :=
  if 48 ≤ c.toNat ∧ c.toNat ≤ 57 then some (c.toNat - 48)
  else if 65 ≤ c.toNat ∧ c.toNat ≤ 70 then some (c.toNat - 55)
  else if 97 ≤ c.toNat ∧ c.toNat ≤ 102 then some (c.toNat - 87)
  else none

/-- Tokens of a percent-encoded string: literal characters and escaped
bytes. -/
inductive PctToken
  | raw (c : Char)
  | byte (b : ℕ)
deriving DecidableEq

/-- Model of the platform, stage 1 of `decodeURIComponent`: scan `%XX`
escapes into bytes, failing on malformed escapes (the platform throws
`URIError` there, which the callers in `part_001` catch). -/
def pctTokenize : List Char → Option (List PctToken)
  | [] => some []
  | c :: rest =>
    if c = '%' then
      match rest with
      | h1 :: h2 :: rest2 => do
        let a ← hexVal h1
        let b ← hexVal h2
        let ts ← pctTokenize rest2
        pure (PctToken.byte (16 * a + b) :: ts)
      | _ => none
    else do
      let ts ← pctTokenize rest
      pure (PctToken.raw c :: ts)

/-- A UTF-8 continuation byte. -/
def isContByte (b : ℕ) : Bool :=
  decide (0x80 ≤ b) && decide (b < 0xC0)

/-- Model of the platform, stage 2 of `decodeURIComponent`: assemble escaped
bytes as UTF-8 scalar values — rejecting truncated, overlong and surrogate
sequences, as the platform does with `URIError` — and pass raw characters
through.  The decoder is a byte automaton: `need` counts outstanding
continuation bytes, `acc` holds the partial scalar value and `lo` the
smallest value the current sequence may legally produce (overlong
rejection). -/
def pctAssembleAux : List PctToken → ℕ → ℕ → ℕ → Option (List Char)
  | [], 0, _, _ => some []
  | [], _ + 1, _, _ => none
  | PctToken.raw c :: ts, 0, _, _ =>
    (pctAssembleAux ts 0 0 0).map (fun cs => c :: cs)
  | PctToken.raw _ :: _, _ + 1, _, _ => none
  | PctToken.byte b :: ts, 0, _, _ =>
    if b < 0x80 then (pctAssembleAux ts 0 0 0).map (fun cs => Char.ofNat b :: cs)
    else if 0xC2 ≤ b ∧ b < 0xE0 then pctAssembleAux ts 1 (b - 0xC0) 0x80
    else if 0xE0 ≤ b ∧ b < 0xF0 then pctAssembleAux ts 2 (b - 0xE0) 0x800
    else if 0xF0 ≤ b ∧ b < 0xF5 then pctAssembleAux ts 3 (b - 0xF0) 0x10000
    else none
  | PctToken.byte b :: ts, need + 1, acc, lo =>
    if isContByte b then
      if need = 0 then
        if lo ≤ acc * 0x40 + (b - 0x80) ∧
            (acc * 0x40 + (b - 0x80) < 0xD800 ∨ 0xE000 ≤ acc * 0x40 + (b - 0x80)) ∧
            acc * 0x40 + (b - 0x80) < 0x110000 then
          (pctAssembleAux ts 0 0 0).map
            (fun cs => Char.ofNat (acc * 0x40 + (b - 0x80)) :: cs)
        else none
      else pctAssembleAux ts need (acc * 0x40 + (b - 0x80)) lo
    else none

/-- The decoder automaton started in its initial state. -/
def pctAssemble (ts : List PctToken) : Option (List Char) :=
  pctAssembleAux ts 0 0 0

/-- Model of the platform: `decodeURIComponent`. -/
def decodeURIComponentL (l : List Char) : Option (List Char) := do
  pctAssemble (← pctTokenize l)

/-- The tokens produced for one character of an `encodeURIComponent`
output. -/
def tokensOfChar (c : Char) : List PctToken :=
  if isUnreservedChar c then [PctToken.raw c]
  else (utf8Bytes c.toNat).map PctToken.byte

/-- Model of the platform: the WHATWG `URL` parser, reduced to what the
invite helpers consult — parse success and `url.pathname`.  A parse succeeds
on `scheme://host[/path][?query][#fragment]` with a nonempty alphabetic
scheme and nonempty host; the pathname runs from the first `/` after the host
up to `?` or `#`, defaulting to `/`. -/
def parseURL (s : List Char) : Option (List Char) :=
  let scheme := s.takeWhile (fun c => c.isAlpha)
  let rest := s.drop scheme.length
  if scheme.isEmpty then none
  else
    match rest with
    | ':' :: '/' :: '/' :: rest2 =>
      let host := rest2.takeWhile (fun c => !(c == '/' || c == '?' || c == '#'))
      if host.isEmpty then none
      else
        let afterHost := rest2.drop host.length
        let path := afterHost.takeWhile (fun c => !(c == '?' || c == '#'))
        if path.isEmpty then some ['/'] else some path
    | _ => none

/-- JS `String.prototype.split` on a one-character separator. -/
def splitOnChar (sep : Char) : List Char → List (List Char)
  | [] => [[]]
  | c :: rest =>
    match splitOnChar sep rest with
    | [] => [[]]
    | h :: t => if c = sep then [] :: h :: t else (c :: h) :: t

/-- Embedding of `generateInviteLink` (`src/unnamed/part_001`, lines 1-5):
`origin + "/join/" + encodeURIComponent(puzzleId)`, with `origin` standing
for `window.location.origin`. -/
def generateInviteLink (origin : String) (puzzleId : String) : String :=
  origin ++ "/join/" ++ encodeURIComponent puzzleId

/-- Embedding of `extractPuzzleId` (lines 7-17): parse the link as a URL,
split the pathname on `/`, take the last part, percent-decode it; any failure
(unparsable URL, malformed escape) yields `none`, the embedding of
`catch (err) { return null }`. -/
def extractPuzzleId (inviteLink : String) : Option String :=
  match parseURL inviteLink.data with
  | none => none
  | some pathname =>
    let pathParts := splitOnChar '/' pathname
    let inviteCode := pathParts.getLastD []
    match decodeURIComponentL inviteCode with
    | none => none
    | some cs => some (String.mk cs)

/-- Embedding of `isValidInviteLink` (lines 19-26): the URL must parse, its
pathname must start with `/join/`, and `extractPuzzleId` must succeed. -/
def isValidInviteLink (inviteLink : String) : Bool :=
  match parseURL inviteLink.data with
  | none => false
  | some pathname =>
    "/join/".data.isPrefixOf pathname && (extractPuzzleId inviteLink).isSome

/-- Invariant tying the component state to a session of `n` pieces; it pins
the completion counters to whether `progress` has reached `100`. -/
def GameInv (n : ℕ) (g : LocalGame) : Prop :=
  g.totalPieces = n ∧
  g.piecesPlaced.length = n ∧
  g.completedPieces = g.piecesPlaced.count true ∧
  g.progress = (g.completedPieces : ℚ) / (n : ℚ) * 100 ∧
  (g.progress = 100 ↔ g.completedPieces = n) ∧
  (g.progress = 100 → g.isTimerRunning = false) ∧
  g.syncCompletionRuns = (if g.progress = 100 then 1 else 0) ∧
  g.legacyCompletionRuns = (if g.progress = 100 then 1 else 0)

end Puzzle

namespace Puzzle

/-! ## Theorems -/

/-- Helper: the guarded write is exactly a `max`. -/
theorem updateProgressStep_eq_max (c n : ℚ) : updateProgressStep c n = max c n := by
  unfold updateProgressStep
  rcases le_or_lt n c with h | h
  · rw [if_pos h, max_eq_left h]
  · rw [if_neg (not_le.mpr h), max_eq_right h.le]

/-- Helper: a `max`-fold never drops below its seed. -/
theorem le_foldl_max (l : List ℚ) (b : ℚ) : b ≤ l.foldl max b := by
  induction l generalizing b with
  | nil => exact le_refl b
  | cons x xs ih => exact le_trans (le_max_left b x) (ih (max b x))

/-- Claim C2: the stored session progress is overwritten only when the
incoming value is strictly greater (each delivery acts as `max`), hence over
any delivery order the stored value is non-decreasing over time and equals the
maximum of the seed and every update received so far. -/
theorem progress_monotone_max (init : ℚ) (pre suf : List ℚ) (c n : ℚ) :
    updateProgressStep c n = max c n ∧
    runProgressUpdates init (pre ++ suf) = (pre ++ suf).foldl max init ∧
    runProgressUpdates init pre ≤ runProgressUpdates init (pre ++ suf) := by
  have hfold : ∀ (l : List ℚ) (b : ℚ), runProgressUpdates b l = l.foldl max b := by
    intro l
    induction l with
    | nil => intro b; rfl
    | cons x xs ih =>
      intro b
      show runProgressUpdates (updateProgressStep b x) xs = xs.foldl max (max b x)
      rw [ih (updateProgressStep b x), updateProgressStep_eq_max]
  refine ⟨updateProgressStep_eq_max c n, hfold _ init, ?_⟩
  rw [hfold _ init, hfold _ init, List.foldl_append]
  exact le_foldl_max suf (pre.foldl max init)

/-- Claim C4 counterexample: `completed` is not terminal.  A host calling
`startGame` on a completed session rewrites the status to `playing` (and
stamps a fresh `startedAt`) instead of being a no-op. -/
theorem completed_not_terminal_cex :
    (startGame true true 3 completedSession).status = SessionStatus.playing ∧
    startGame true true 3 completedSession ≠ completedSession := by
  decide

/-- Claim C4 (amended): the status operations write fixed values without
consulting the current status — `startGame` (host, with a game id) always
writes `playing`, `pauseGame` always writes `waiting` (not `paused`), and
`endGame` (host) always writes `completed`; `startGame`/`endGame` are no-ops
exactly when the `!gameId || !isHost` guard trips, while `pauseGame` has no
guard at all. -/
theorem status_writes_unconditional (s : MPSession) (n : ℕ) (w : Option ℕ) :
    (startGame true true n s).status = SessionStatus.playing ∧
    (pauseGame s).status = SessionStatus.waiting ∧
    (endGame true true n w s).status = SessionStatus.completed ∧
    startGame false true n s = s ∧ startGame true false n s = s ∧
    endGame false true n w s = s ∧ endGame true false n w s = s :=
  ⟨rfl, rfl, rfl, rfl, rfl, rfl, rfl⟩

/-- Claim C5 counterexample: `handleResetGame` runs over the unchanged piece
set and assigns `isPlaced = false` to a piece that was already placed, so
`isPlaced` does revert under the reset operation. -/
theorem isPlaced_reset_cex :
    placedPiece.isPlaced = true ∧
    (handleResetGame [{ dx := 0, dy := 0, z := 0, rot := 0 }] [placedPiece]).map
      (fun p => p.isPlaced) = [false] :=
  ⟨rfl, rfl⟩

/-- Claim C5 (amended): across any sequence of drag interactions a placed
piece stays placed (`handleMouseDown` refuses placed pieces and
`handleMouseUp` only ever sets `isPlaced`), but `handleResetGame` assigns
`isPlaced = false` to every piece of the current set. -/
theorem isPlaced_monotone_drags (ds : List (Vec3 × ℝ)) (p : PieceState)
    (rs : List ResetOffsets) (ps : List PieceState) :
    (applyDrags ds { p with isPlaced := true }).isPlaced = true ∧
    (handleResetGame rs ps).all (fun q => !q.isPlaced) = true := by
  constructor
  · have key : ∀ (ds : List (Vec3 × ℝ)) (q : PieceState), q.isPlaced = true →
        (applyDrags ds q).isPlaced = true := by
      intro ds
      induction ds with
      | nil => intro q hq; exact hq
      | cons d ds ih =>
        intro q hq
        show (applyDrags ds (dragOp d.1 d.2 q)).isPlaced = true
        rw [dragOp, if_pos hq]
        exact ih q hq
    exact key ds _ rfl
  · induction rs generalizing ps with
    | nil => rfl
    | cons r rs ih =>
      cases ps with
      | nil => rfl
      | cons p ps =>
        show (resetPiece r p :: handleResetGame rs ps).all (fun q => !q.isPlaced) = true
        rw [List.all_cons, ih ps]
        rfl

/-- Claim C10: `checkGameCompletion` returns `true` exactly when the pieces
record is present, non-empty and fully placed; in particular a missing record
or an empty piece set is never reported complete. -/
theorem checkGameCompletion_iff (pieces : Option (List GamePiece)) :
    (checkGameCompletion pieces = true ↔
      ∃ l, pieces = some l ∧ 0 < l.length ∧ ∀ p ∈ l, p.isPlaced = true) ∧
    checkGameCompletion none = false ∧
    checkGameCompletion (some []) = false := by
  refine ⟨?_, rfl, rfl⟩
  cases pieces with
  | none => simp [checkGameCompletion]
  | some l =>
    simp only [checkGameCompletion, Bool.and_eq_true, decide_eq_true_eq, List.all_eq_true]
    constructor
    · rintro ⟨hlen, hall⟩
      exact ⟨l, rfl, hlen, fun p hp => hall p hp⟩
    · rintro ⟨l', hl', hlen, hall⟩
      cases hl'
      exact ⟨hlen, fun p hp => hall p hp⟩

/-- Claim C10 witness: a one-piece record with the piece placed is reported
complete. -/
theorem checkGameCompletion_iff_witness :
    checkGameCompletion (some [{ x := 0, y := 0, isPlaced := true }]) = true :=
  (checkGameCompletion_iff (some [{ x := 0, y := 0, isPlaced := true }])).1.mpr
    ⟨_, rfl, by decide, by intro p hp; simp at hp; rw [hp]⟩

/-- Helper: looking a key up after removing `uid`. -/
theorem lookup_filter_ne (uid v : String) (l : List (String × PlayerRecord)) :
    (l.filter (fun kv => kv.1 != uid)).lookup v =
      if v == uid then none else l.lookup v := by
  induction l with
  | nil => cases h : (v == uid) <;> simp [h]
  | cons kv l ih =>
    obtain ⟨k, r⟩ := kv
    cases hku : (k == uid) with
    | false =>
      have hbne : ((k, r).1 != uid) = true := by simp [bne, hku]
      cases hvk : (v == k) with
      | false => simpa [List.filter_cons, hbne, List.lookup, hvk] using ih
      | true =>
        have hvu : (v == uid) = false := by
          have h1 : v = k := eq_of_beq hvk
          subst h1
          exact hku
        simp [List.filter_cons, hbne, List.lookup, hvk, hvu]
    | true =>
      have hbne : ((k, r).1 != uid) = false := by simp [bne, hku]
      cases hvu : (v == uid) with
      | true => simpa [List.filter_cons, hbne, List.lookup, hvu] using ih
      | false =>
        have hvk : (v == k) = false := by
          have hk : k = uid := eq_of_beq hku
          subst hk
          exact hvu
        simpa [List.filter_cons, hbne, List.lookup, hvk, hvu] using ih

/-- Helper: looking a key up after the keyed `players/{uid}` child update. -/
theorem lookup_map_update (uid v : String) (u : OnDisconnectUpdate)
    (l : List (String × PlayerRecord)) :
    (l.map (fun kv =>
        (kv.1, if kv.1 == uid then
          { kv.2 with isOnline := u.isOnline, lastActive := u.lastActive }
        else kv.2))).lookup v =
      (l.lookup v).map (fun r =>
        if v == uid then { r with isOnline := u.isOnline, lastActive := u.lastActive } else r) := by
  induction l with
  | nil => rfl
  | cons kv l ih =>
    obtain ⟨k, r⟩ := kv
    cases hvk : (v == k) with
    | true =>
      have h1 : v = k := eq_of_beq hvk
      subst h1
      cases hvu : (v == uid) with
      | true =>
        have hku : (v == uid) = true := hvu
        simp [List.lookup, hvu, hku]
      | false =>
        have hku : (v == uid) = false := hvu
        simp [List.lookup, hvu, hku]
    | false => simpa [List.lookup, hvk] using ih

/-- Claim C6 counterexample: the `onDisconnect` payload freezes
`Date.now()` at registration time.  A guest who joins (registering the
handler) at time `5` and abruptly disconnects at time `9` ends up with
`lastActive = 5`, the registration instant, not the current time `9` of the
disconnect. -/
theorem disconnect_lastActive_cex :
    (applyDisconnect "g" (registerDisconnectUpdate 5) demoDB).players.lookup "g" =
      some { name := "Guest", isHost := false, ready := true, isOnline := false,
             lastActive := 5 } ∧
    (5 : ℕ) ≠ 9 := by
  constructor
  · rfl
  · decide

/-- Claim C6 (amended): on explicit leave a host removes the entire session
record while a guest removes exactly their own player record; on an abrupt
disconnect the player's record is merged with `isOnline = false` and
`lastActive` set to the timestamp frozen when the handler was registered (the
join time), with every other player record and session field untouched. -/
theorem leave_disconnect_behavior (db : SessionDB) (uid : String) (t : ℕ) :
    cleanupOnLeave true uid db = none ∧
    (∃ db', cleanupOnLeave false uid db = some db' ∧
      db'.status = db.status ∧ db'.progress = db.progress ∧ db'.timer = db.timer ∧
      db'.pieces = db.pieces ∧
      ∀ v, db'.players.lookup v = if v == uid then none else db.players.lookup v) ∧
    ((applyDisconnect uid (registerDisconnectUpdate t) db).status = db.status ∧
      (applyDisconnect uid (registerDisconnectUpdate t) db).progress = db.progress ∧
      (applyDisconnect uid (registerDisconnectUpdate t) db).timer = db.timer ∧
      (applyDisconnect uid (registerDisconnectUpdate t) db).pieces = db.pieces ∧
      ∀ v, (applyDisconnect uid (registerDisconnectUpdate t) db).players.lookup v =
        (db.players.lookup v).map (fun r =>
          if v == uid then { r with isOnline := false, lastActive := t } else r)) := by
  refine ⟨rfl, ⟨_, rfl, rfl, rfl, rfl, rfl, fun v => lookup_filter_ne uid v db.players⟩,
    rfl, rfl, rfl, rfl, fun v => lookup_map_update uid v (registerDisconnectUpdate t) db.players⟩

/-- Helper: placing an unplaced piece bumps the placed count by one. -/
theorem count_true_set (l : List Bool) (i : ℕ) (h : l[i]? = some false) :
    (l.set i true).count true = l.count true + 1 := by
  induction l generalizing i with
  | nil => simp at h
  | cons b l ih =>
    cases i with
    | zero =>
      simp only [List.getElem?_cons_zero, Option.some.injEq] at h
      subst h
      simp [List.count_cons]
    | succ i =>
      simp only [List.getElem?_cons_succ] at h
      have hih := ih i h
      simp only [List.set_cons_succ, List.count_cons, hih]
      omega

/-- Helper: when every piece is placed, no index can still read `false`. -/
theorem not_unplaced_of_count_eq (l : List Bool) (i : ℕ)
    (hc : l.count true = l.length) (h : l[i]? = some false) : False := by
  have hall := List.count_eq_length.mp hc false (List.getElem?_mem h)
  simp at hall

/-- Helper: the progress formula hits `100` exactly at full placement. -/
theorem progress_100_iff (n c : ℕ) (hn : 0 < n) :
    ((c : ℚ) / (n : ℚ) * 100 = 100) ↔ c = n := by
  have hn0 : (n : ℚ) ≠ 0 := by exact_mod_cast hn.ne'
  rw [div_mul_eq_mul_div, div_eq_iff hn0]
  constructor
  · intro h
    have hq : (c : ℚ) = (n : ℚ) := by linarith
    exact_mod_cast hq
  · intro h
    subst h
    ring

/-- Helper: one placement strictly changes the progress value. -/
theorem progress_step_ne (n c : ℕ) (hn : 0 < n) :
    ((c : ℚ) + 1) / (n : ℚ) * 100 ≠ (c : ℚ) / (n : ℚ) * 100 := by
  have hn0 : (n : ℚ) ≠ 0 := by exact_mod_cast hn.ne'
  intro h
  rw [div_mul_eq_mul_div, div_mul_eq_mul_div, div_eq_div_iff hn0 hn0] at h
  have h2 := mul_right_cancel₀ hn0 h
  linarith

/-- Helper: a commit that changes nothing fires no effect. -/
theorem runEffects_self (g : LocalGame) : runEffects g g = g := by
  have h1 : ¬(g.progress ≠ g.progress ∧ g.progress = 100) := fun hh => hh.1 rfl
  have h2 : ¬((g.progress ≠ g.progress ∨ g.timeElapsed ≠ g.timeElapsed ∨
      g.completedPieces ≠ g.completedPieces ∨ g.totalPieces ≠ g.totalPieces) ∧
      g.progress = 100) := by
    rintro ⟨(hh | hh | hh | hh), -⟩ <;> exact hh rfl
  simp only [runEffects, if_neg h1, if_neg h2]

/-- Helper: a commit whose progress is not `100` fires no completion body. -/
theorem runEffects_no100 (prev next : LocalGame) (h100 : ¬ next.progress = 100) :
    runEffects prev next = next := by
  have h1 : ¬(next.progress ≠ prev.progress ∧ next.progress = 100) := fun hh => h100 hh.2
  have h2 : ¬((next.progress ≠ prev.progress ∨ next.timeElapsed ≠ prev.timeElapsed ∨
      next.completedPieces ≠ prev.completedPieces ∨ next.totalPieces ≠ prev.totalPieces) ∧
      next.progress = 100) := fun hh => h100 hh.2
  simp only [runEffects, if_neg h1, if_neg h2]

/-- Helper: a commit that moves progress onto `100` fires both completion
effects and stops the timer. -/
theorem runEffects_fire (prev next : LocalGame)
    (hchg : next.progress ≠ prev.progress) (h100 : next.progress = 100) :
    runEffects prev next =
      { next with
        isTimerRunning := false
        syncCompletionRuns := next.syncCompletionRuns + 1
        legacyCompletionRuns := next.legacyCompletionRuns + 1 } := by
  have h1 : next.progress ≠ prev.progress ∧ next.progress = 100 := ⟨hchg, h100⟩
  have h2 : (next.progress ≠ prev.progress ∨ next.timeElapsed ≠ prev.timeElapsed ∨
      next.completedPieces ≠ prev.completedPieces ∨ next.totalPieces ≠ prev.totalPieces) ∧
      next.progress = 100 := ⟨Or.inl hchg, h100⟩
  simp only [runEffects, if_pos h1, if_pos h2]

/-- Helper: the component invariant holds right after start. -/
theorem gameInv_init (n : ℕ) (hn : 0 < n) : GameInv n (initGame n) := by
  unfold GameInv initGame
  refine ⟨rfl, by simp, by simp [List.count_replicate], by simp, ?_, ?_, ?_, ?_⟩
  · show (0 : ℚ) = 100 ↔ 0 = n
    constructor
    · intro h
      norm_num at h
    · intro h
      omega
  · intro h
    norm_num at h
  · show 0 = if (0 : ℚ) = 100 then 1 else 0
    rw [if_neg (by norm_num)]
  · show 0 = if (0 : ℚ) = 100 then 1 else 0
    rw [if_neg (by norm_num)]

/-- Helper: one delivered event preserves the component invariant. -/
theorem gameInv_step (n : ℕ) (hn : 0 < n) (g : LocalGame) (e : GameEvent)
    (hI : GameInv n g) : GameInv n (stepGame g e) := by
  obtain ⟨ht, hl, hc, hp, hiff, htmr, hs, hleg⟩ := hI
  have hn0 : (n : ℚ) ≠ 0 := by exact_mod_cast hn.ne'
  cases e with
  | timerTick =>
    show GameInv n (runEffects g (applyTick g))
    by_cases hrun : g.isTimerRunning = true
    · have hprog : ¬ g.progress = 100 := by
        intro h100
        rw [htmr h100] at hrun
        exact Bool.false_ne_true hrun
      have htick : applyTick g = { g with timeElapsed := g.timeElapsed + 1 } := by
        unfold applyTick
        rw [if_pos hrun]
      rw [htick, runEffects_no100 g { g with timeElapsed := g.timeElapsed + 1 } hprog]
      exact ⟨ht, hl, hc, hp, hiff, fun h => absurd h hprog, hs, hleg⟩
    · have htick : applyTick g = g := by
        unfold applyTick
        rw [if_neg hrun]
      rw [htick, runEffects_self]
      exact ⟨ht, hl, hc, hp, hiff, htmr, hs, hleg⟩
  | dragEnd i elig =>
    show GameInv n (runEffects g (applyDragEnd i elig g))
    cases elig with
    | false =>
      rw [show applyDragEnd i false g = g from rfl, runEffects_self]
      exact ⟨ht, hl, hc, hp, hiff, htmr, hs, hleg⟩
    | true =>
      rcases hm : g.piecesPlaced[i]? with - | b
      · have happ : applyDragEnd i true g = g := by
          simp only [applyDragEnd, hm, if_true]
        rw [happ, runEffects_self]
        exact ⟨ht, hl, hc, hp, hiff, htmr, hs, hleg⟩
      · cases b with
        | true =>
          have happ : applyDragEnd i true g = g := by
            simp only [applyDragEnd, hm, if_true]
          rw [happ, runEffects_self]
          exact ⟨ht, hl, hc, hp, hiff, htmr, hs, hleg⟩
        | false =>
          have hne100 : ¬ g.progress = 100 := by
            intro h100
            have hcn := hiff.mp h100
            have hcl : g.piecesPlaced.count true = g.piecesPlaced.length := by
              rw [← hc, hcn, hl]
            exact not_unplaced_of_count_eq _ i hcl hm
          have happ : applyDragEnd i true g =
              { g with
                piecesPlaced := g.piecesPlaced.set i true
                completedPieces := g.completedPieces + 1
                progress := ((g.completedPieces + 1 : ℕ) : ℚ) / (g.totalPieces : ℚ) * 100 } := by
            simp only [applyDragEnd, hm, if_true]
          have happ2 : applyDragEnd i true g =
              { g with
                piecesPlaced := g.piecesPlaced.set i true
                completedPieces := g.completedPieces + 1
                progress := ((g.completedPieces + 1 : ℕ) : ℚ) / (n : ℚ) * 100 } := by
            rw [happ, ht]
          rw [happ2]
          have hchg : ((g.completedPieces + 1 : ℕ) : ℚ) / (n : ℚ) * 100 ≠ g.progress := by
            rw [hp]
            push_cast
            exact progress_step_ne n g.completedPieces hn
          by_cases hfull : g.completedPieces + 1 = n
          · have h100 : ((g.completedPieces + 1 : ℕ) : ℚ) / (n : ℚ) * 100 = 100 :=
              (progress_100_iff n (g.completedPieces + 1) hn).mpr hfull
            rw [runEffects_fire g
              { g with
                piecesPlaced := g.piecesPlaced.set i true
                completedPieces := g.completedPieces + 1
                progress := ((g.completedPieces + 1 : ℕ) : ℚ) / (n : ℚ) * 100 } hchg h100]
            refine ⟨ht, by simpa using hl, ?_, rfl, ?_, fun _ => rfl, ?_, ?_⟩
            · show g.completedPieces + 1 = (g.piecesPlaced.set i true).count true
              rw [count_true_set _ _ hm, hc]
            · exact progress_100_iff n (g.completedPieces + 1) hn
            · show g.syncCompletionRuns + 1 = _
              rw [if_pos h100, hs, if_neg hne100]
            · show g.legacyCompletionRuns + 1 = _
              rw [if_pos h100, hleg, if_neg hne100]
          · have h100 : ¬ ((g.completedPieces + 1 : ℕ) : ℚ) / (n : ℚ) * 100 = 100 :=
              fun h => hfull ((progress_100_iff n (g.completedPieces + 1) hn).mp h)
            rw [runEffects_no100 g
              { g with
                piecesPlaced := g.piecesPlaced.set i true
                completedPieces := g.completedPieces + 1
                progress := ((g.completedPieces + 1 : ℕ) : ℚ) / (n : ℚ) * 100 } h100]
            refine ⟨ht, by simpa using hl, ?_, rfl, ?_, fun h => absurd h h100, ?_, ?_⟩
            · show g.completedPieces + 1 = (g.piecesPlaced.set i true).count true
              rw [count_true_set _ _ hm, hc]
            · exact progress_100_iff n (g.completedPieces + 1) hn
            · show g.syncCompletionRuns = _
              rw [if_neg h100, hs, if_neg hne100]
            · show g.legacyCompletionRuns = _
              rw [if_neg h100, hleg, if_neg hne100]

/-- Helper: the invariant holds after any event sequence. -/
theorem gameInv_run (n : ℕ) (hn : 0 < n) (es : List GameEvent) :
    GameInv n (runGame (initGame n) es) := by
  suffices h : ∀ g, GameInv n g → GameInv n (runGame g es) from h _ (gameInv_init n hn)
  induction es with
  | nil => exact fun g hg => hg
  | cons e es ih => exact fun g hg => ih (stepGame g e) (gameInv_step n hn g e hg)

/-- Claim C3 (amended): there is no one-shot completion guard; instead a
duplicate placement event leaves the state (hence `progress`) unchanged, so
neither completion effect re-runs, while each of the two completion effects
(the `synchronousCompletion` effect at lines 722-730 and the
`handlePuzzleCompletion` effect at lines 984-1013) runs exactly once when
`progress` reaches `100` — so the completion handling (record persistence,
achievement computation, `completed` status write) executes twice per
session, once per effect, not once. -/
theorem completion_effects_fire_once (n : ℕ) (es : List GameEvent) (hn : 0 < n) :
    (runGame (initGame n) es).syncCompletionRuns =
      (if (runGame (initGame n) es).progress = 100 then 1 else 0) ∧
    (runGame (initGame n) es).legacyCompletionRuns =
      (if (runGame (initGame n) es).progress = 100 then 1 else 0) := by
  obtain ⟨-, -, -, -, -, -, hs, hleg⟩ := gameInv_run n hn es
  exact ⟨hs, hleg⟩

/-- Claim C3 witness: a one-piece session with a placement followed by a
timer tick, instantiating the amended theorem. -/
theorem completion_effects_fire_once_witness :
    0 < 1 ∧
    ((runGame (initGame 1) [GameEvent.dragEnd 0 true, GameEvent.timerTick]).syncCompletionRuns =
      (if (runGame (initGame 1) [GameEvent.dragEnd 0 true, GameEvent.timerTick]).progress = 100
        then 1 else 0) ∧
    (runGame (initGame 1) [GameEvent.dragEnd 0 true, GameEvent.timerTick]).legacyCompletionRuns =
      (if (runGame (initGame 1) [GameEvent.dragEnd 0 true, GameEvent.timerTick]).progress = 100
        then 1 else 0)) :=
  ⟨Nat.one_pos, completion_effects_fire_once 1 [GameEvent.dragEnd 0 true, GameEvent.timerTick]
    Nat.one_pos⟩

/-- Claim C3 counterexample: in a one-piece session where the final placement
event is delivered and then replayed as a duplicate, the duplicate is indeed
suppressed (the state does not change), yet the completion handling still runs
twice — once in the `synchronousCompletion` effect and once in the
`handlePuzzleCompletion` effect — so it is not triggered exactly once per
session. -/
theorem completion_runs_twice_cex :
    (runGame (initGame 1) [GameEvent.dragEnd 0 true, GameEvent.dragEnd 0 true]).syncCompletionRuns +
      (runGame (initGame 1)
        [GameEvent.dragEnd 0 true, GameEvent.dragEnd 0 true]).legacyCompletionRuns = 2 ∧
    ¬((runGame (initGame 1)
        [GameEvent.dragEnd 0 true, GameEvent.dragEnd 0 true]).syncCompletionRuns +
      (runGame (initGame 1)
        [GameEvent.dragEnd 0 true, GameEvent.dragEnd 0 true]).legacyCompletionRuns = 1) := by
  have e1 : applyDragEnd 0 true (initGame 1) =
      (⟨[true], 1, 1, ((0 + 1 : ℕ) : ℚ) / ((1 : ℕ) : ℚ) * 100, true, 0, 0, 0⟩ : LocalGame) := rfl
  have hq : ((0 + 1 : ℕ) : ℚ) / ((1 : ℕ) : ℚ) * 100 = 100 := by norm_num
  have e1q : applyDragEnd 0 true (initGame 1) =
      (⟨[true], 1, 1, 100, true, 0, 0, 0⟩ : LocalGame) := by
    rw [e1, hq]
  have s1 : stepGame (initGame 1) (GameEvent.dragEnd 0 true) =
      (⟨[true], 1, 1, 100, false, 0, 1, 1⟩ : LocalGame) := by
    show runEffects (initGame 1) (applyDragEnd 0 true (initGame 1)) = _
    rw [e1q, runEffects_fire (initGame 1) (⟨[true], 1, 1, 100, true, 0, 0, 0⟩ : LocalGame)
      (by norm_num [initGame]) (by norm_num)]
  have s2 : stepGame (⟨[true], 1, 1, 100, false, 0, 1, 1⟩ : LocalGame)
      (GameEvent.dragEnd 0 true) = (⟨[true], 1, 1, 100, false, 0, 1, 1⟩ : LocalGame) := by
    show runEffects (⟨[true], 1, 1, 100, false, 0, 1, 1⟩ : LocalGame)
        (applyDragEnd 0 true (⟨[true], 1, 1, 100, false, 0, 1, 1⟩ : LocalGame)) = _
    have happ : applyDragEnd 0 true (⟨[true], 1, 1, 100, false, 0, 1, 1⟩ : LocalGame) =
        (⟨[true], 1, 1, 100, false, 0, 1, 1⟩ : LocalGame) := rfl
    rw [happ, runEffects_self]
  have hrun : runGame (initGame 1) [GameEvent.dragEnd 0 true, GameEvent.dragEnd 0 true] =
      (⟨[true], 1, 1, 100, false, 0, 1, 1⟩ : LocalGame) := by
    show stepGame (stepGame (initGame 1) (GameEvent.dragEnd 0 true)) (GameEvent.dragEnd 0 true) = _
    rw [s1, s2]
  rw [hrun]
  norm_num

/-- Helper: the JS remainder with positive modulus lies strictly between
`-m` and `m`. -/
theorem jsMod_bounds (x m : ℝ) (hm : 0 < m) : -m < jsMod x m ∧ jsMod x m < m := by
  have hm0 : m ≠ 0 := hm.ne'
  have hxm : x / m * m = x := div_mul_cancel₀ x hm0
  unfold jsMod jsTrunc
  by_cases hx : 0 ≤ x / m
  · rw [if_pos hx]
    have h1 : (⌊x / m⌋ : ℝ) ≤ x / m := Int.floor_le _
    have h2 : x / m < ⌊x / m⌋ + 1 := Int.lt_floor_add_one _
    constructor
    · nlinarith
    · nlinarith
  · rw [if_neg hx]
    have h1 : x / m ≤ (⌈x / m⌉ : ℝ) := Int.le_ceil _
    have h2 : (⌈x / m⌉ : ℝ) < x / m + 1 := Int.ceil_lt_add_one _
    constructor
    · nlinarith
    · nlinarith

/-- Helper: distance along the x axis. -/
theorem distanceTo_axis (d : ℝ) (hd : 0 ≤ d) :
    distanceTo { x := 0, y := 0, z := 0 } { x := d, y := 0, z := 0 } = d := by
  unfold distanceTo
  have h : ((0 : ℝ) - d) ^ 2 + ((0 : ℝ) - 0) ^ 2 + ((0 : ℝ) - 0) ^ 2 = d ^ 2 := by ring
  rw [h]
  exact Real.sqrt_sq hd

/-- Helper: the computed rotation delta of an unrotated piece is zero. -/
theorem rotationDiffOf_zero : rotationDiffOf 0 = 0 := by
  unfold rotationDiffOf jsMod jsTrunc
  rw [zero_div, if_pos le_rfl, Int.floor_zero]
  simp

/-- Helper: the computed rotation delta at one radian is one radian. -/
theorem rotationDiffOf_one : rotationDiffOf 1 = 1 := by
  unfold rotationDiffOf jsMod jsTrunc
  have hpos : (0 : ℝ) < Real.pi * 2 := by
    have := Real.pi_pos
    linarith
  rw [if_pos (le_of_lt (by positivity : (0:ℝ) < 1 / (Real.pi * 2)))]
  rw [show ⌊(1 : ℝ) / (Real.pi * 2)⌋ = 0 from Int.floor_eq_zero_iff.mpr
    (Set.mem_Ico.mpr ⟨by positivity, by
      rw [div_lt_one hpos]
      nlinarith [Real.pi_gt_three]⟩)]
  simp

/-- Helper: rotation `0` passes the rotation part of the snap test. -/
theorem isNearCorrectRotation_zero : isNearCorrectRotation 0 := by
  unfold isNearCorrectRotation
  rw [rotationDiffOf_zero]
  left
  norm_num

/-- Helper: rotation `1` radian fails the rotation part of the snap test. -/
theorem not_isNearCorrectRotation_one : ¬ isNearCorrectRotation 1 := by
  unfold isNearCorrectRotation
  rw [rotationDiffOf_one]
  rintro (h | h)
  · norm_num at h
  · rw [abs_of_neg (by nlinarith [Real.pi_gt_three] : (1 : ℝ) - Real.pi * 2 < 0)] at h
    nlinarith [Real.pi_gt_three]

/-- Claim C1 counterexample: the snap decision ignores `DIFFICULTY_SETTINGS`
entirely: with the easy difficulty active (`rotationEnabled = false`,
`snapDistance = 0.4`), a piece dropped at distance `0.29` from its target but
rotated by `1` radian is NOT accepted, because `handleMouseUp` always applies
its hard-coded rotation check — refuting "at distance 0.29 the piece snaps
regardless of its rotation" for rotation-disabled difficulties. -/
theorem snap_ignores_difficulty_cex :
    distanceTo piece029rot1.originalPosition piece029rot1.position = 0.29 ∧
    (DIFFICULTY_SETTINGS DifficultyKey.easy).rotationEnabled = false ∧
    (0.29 : ℚ) < (DIFFICULTY_SETTINGS DifficultyKey.easy).snapDistance ∧
    (handleMouseUpPiece piece029rot1).isPlaced = false := by
  refine ⟨?_, rfl, by norm_num [DIFFICULTY_SETTINGS], ?_⟩
  · show distanceTo { x := 0, y := 0, z := 0 } { x := (0.29 : ℝ), y := 0, z := 0 } = 0.29
    exact distanceTo_axis 0.29 (by norm_num)
  · have hnot : ¬ pieceSnapEligible piece029rot1 := by
      intro h
      exact not_isNearCorrectRotation_one h.2
    unfold handleMouseUpPiece
    rw [if_neg hnot]
    rfl

/-- Claim C1 (amended): a drag ending in `handleMouseUp` leaves the piece
placed exactly when it was already placed or its Euclidean distance to the
target is below the hard-coded `0.3` AND its rotation is within the hard-coded
`0.2` rad tolerance of a full turn; the active difficulty's `snapDistance` and
`rotationEnabled` are never consulted (the decision takes no difficulty
input).  In particular a piece at distance `0.29` with rotation `0` snaps and
a piece at distance `0.31` does not. -/
theorem snap_decision_characterization (p : PieceState) :
    ((handleMouseUpPiece p).isPlaced = true ↔
      p.isPlaced = true ∨
        (distanceTo p.originalPosition p.position < 0.3 ∧
          isNearCorrectRotation p.rotationZ)) ∧
    (handleMouseUpPiece pieceAt029).isPlaced = true ∧
    (handleMouseUpPiece pieceAt031).isPlaced = false := by
  refine ⟨?_, ?_, ?_⟩
  · by_cases h : pieceSnapEligible p
    · constructor
      · intro _
        exact Or.inr h
      · intro _
        unfold handleMouseUpPiece
        rw [if_pos h]
    · unfold handleMouseUpPiece
      rw [if_neg h]
      constructor
      · intro hp
        exact Or.inl hp
      · rintro (hp | hp)
        · exact hp
        · exact absurd hp h
  · have helig : pieceSnapEligible pieceAt029 := by
      constructor
      · show distanceTo { x := 0, y := 0, z := 0 } { x := (0.29 : ℝ), y := 0, z := 0 } < 0.3
        rw [distanceTo_axis 0.29 (by norm_num)]
        norm_num
      · exact isNearCorrectRotation_zero
    unfold handleMouseUpPiece
    rw [if_pos helig]
  · have hnot : ¬ pieceSnapEligible pieceAt031 := by
      intro h
      have hd := h.1
      rw [show distanceTo pieceAt031.originalPosition pieceAt031.position =
        distanceTo { x := 0, y := 0, z := 0 } { x := (0.31 : ℝ), y := 0, z := 0 } from rfl,
        distanceTo_axis 0.31 (by norm_num)] at hd
      norm_num at hd
    unfold handleMouseUpPiece
    rw [if_neg hnot]
    rfl

/-- Claim C7 counterexample: the snap test's rotation delta is not a minimal
angular distance between a current and a target rotation: there is no target
rotation input at all, and for a piece rotated by 359 degrees the computed
`rotationDiff` equals the full 359 degrees (more than 3 radians), not
approximately 2 degrees. -/
theorem rotation_delta_359_cex :
    rotationDiffOf (359 * (Real.pi / 180)) = 359 * (Real.pi / 180) ∧
    (3 : ℝ) < 359 * (Real.pi / 180) := by
  have hpi3 := Real.pi_gt_three
  have hpi0 := Real.pi_pos
  constructor
  · unfold rotationDiffOf jsMod jsTrunc
    have harg : 359 * (Real.pi / 180) / (Real.pi * 2) = 359 / 360 := by
      have hne : Real.pi ≠ 0 := Real.pi_ne_zero
      field_simp
      ring
    rw [harg, if_pos (by norm_num : (0:ℝ) ≤ 359 / 360),
      show ⌊(359 / 360 : ℝ)⌋ = 0 from Int.floor_eq_zero_iff.mpr
        (Set.mem_Ico.mpr ⟨by norm_num, by norm_num⟩)]
    rw [Int.cast_zero, mul_zero, sub_zero]
    exact abs_of_nonneg (by positivity)
  · nlinarith

/-- Claim C7 (amended): the snap test compares the rotation against the fixed
implicit target `0` — there is no per-piece target rotation — via
`rotationDiff = |rotation % 2π|` together with the two-sided condition
`rotationDiff < 0.2 ∨ |rotationDiff - 2π| < 0.2`; that condition is exactly
equivalent to the rotation lying within `0.2` rad of SOME whole number of
full turns, so wrap-around (e.g. 359° ≡ -1°) is handled at the level of the
accept condition, even though the computed delta value itself is not the
minimal angular distance. -/
theorem rotation_condition_wraparound (θ : ℝ) :
    isNearCorrectRotation θ ↔ ∃ k : ℤ, |θ - Real.pi * 2 * (k : ℝ)| < 0.2 := by
  have hm : (0 : ℝ) < Real.pi * 2 := by
    have := Real.pi_pos
    linarith
  have hm6 : (6 : ℝ) < Real.pi * 2 := by
    have := Real.pi_gt_three
    linarith
  obtain ⟨hlo, hhi⟩ := jsMod_bounds θ (Real.pi * 2) hm
  have hmod : jsMod θ (Real.pi * 2) =
      θ - Real.pi * 2 * ((jsTrunc (θ / (Real.pi * 2)) : ℤ) : ℝ) := rfl
  unfold isNearCorrectRotation rotationDiffOf
  constructor
  · rintro (h | h)
    · exact ⟨jsTrunc (θ / (Real.pi * 2)), by
        rw [← hmod]
        exact h⟩
    · rcases le_or_lt 0 (jsMod θ (Real.pi * 2)) with hpos | hneg
      · refine ⟨jsTrunc (θ / (Real.pi * 2)) + 1, ?_⟩
        have heq : θ - Real.pi * 2 * ((jsTrunc (θ / (Real.pi * 2)) + 1 : ℤ) : ℝ) =
            jsMod θ (Real.pi * 2) - Real.pi * 2 := by
          push_cast
          rw [hmod]
          ring
        rw [heq]
        rw [abs_of_nonneg hpos] at h
        exact h
      · refine ⟨jsTrunc (θ / (Real.pi * 2)) - 1, ?_⟩
        have heq : θ - Real.pi * 2 * ((jsTrunc (θ / (Real.pi * 2)) - 1 : ℤ) : ℝ) =
            jsMod θ (Real.pi * 2) + Real.pi * 2 := by
          push_cast
          rw [hmod]
          ring
        rw [heq]
        rw [abs_of_neg hneg] at h
        rw [← abs_neg]
        have : -(jsMod θ (Real.pi * 2) + Real.pi * 2) =
            -jsMod θ (Real.pi * 2) - Real.pi * 2 := by ring
        rw [this]
        exact h
  · rintro ⟨k, hk⟩
    set t := jsTrunc (θ / (Real.pi * 2)) with htdef
    have hjrel : θ - Real.pi * 2 * (k : ℝ) =
        jsMod θ (Real.pi * 2) + Real.pi * 2 * ((t - k : ℤ) : ℝ) := by
      push_cast
      rw [hmod]
      ring
    rcases eq_or_ne (t - k) 0 with hj | hj
    · left
      rw [hjrel, hj] at hk
      simpa using hk
    · right
      have habsj : (1 : ℝ) ≤ |((t - k : ℤ) : ℝ)| := by
        rw [← Int.cast_abs]
        exact_mod_cast Int.one_le_abs hj
      have hj1 : Real.pi * 2 ≤ |Real.pi * 2 * ((t - k : ℤ) : ℝ)| := by
        rw [abs_mul, abs_of_pos hm]
        nlinarith
    -- reverse triangle inequality
      have htri : |Real.pi * 2 * ((t - k : ℤ) : ℝ)| ≤
          |jsMod θ (Real.pi * 2) + Real.pi * 2 * ((t - k : ℤ) : ℝ)| + |jsMod θ (Real.pi * 2)| := by
        have h2 := abs_add (jsMod θ (Real.pi * 2) + Real.pi * 2 * ((t - k : ℤ) : ℝ))
          (-jsMod θ (Real.pi * 2))
        simpa using h2
      rw [hjrel] at hk
      have hlarge : Real.pi * 2 - 0.2 < |jsMod θ (Real.pi * 2)| := by linarith
      have hsmall : |jsMod θ (Real.pi * 2)| < Real.pi * 2 := abs_lt.mpr ⟨hlo, hhi⟩
      rw [abs_of_neg (by linarith : |jsMod θ (Real.pi * 2)| - Real.pi * 2 < 0)]
      linarith

/-- Helper: `hexVal` inverts `hexDigitChar` on one hex digit. -/
theorem hexVal_hexDigitChar (n : ℕ) (hn : n < 16) :
    hexVal (hexDigitChar n) = some n := by
  interval_cases n <;> decide

/-- Helper: tokenizing a percent escape recovers the byte. -/
theorem pctTokenize_encByte (b : ℕ) (hb : b < 256) (rest : List Char) :
    pctTokenize (pctEncodeByte b ++ rest) =
      (pctTokenize rest).map (fun ts => PctToken.byte b :: ts) := by
  have h1 : hexVal (hexDigitChar (b / 16)) = some (b / 16) :=
    hexVal_hexDigitChar _ (by omega)
  have h2 : hexVal (hexDigitChar (b % 16)) = some (b % 16) :=
    hexVal_hexDigitChar _ (by omega)
  have hbb : 16 * (b / 16) + b % 16 = b := by omega
  show pctTokenize ('%' :: hexDigitChar (b / 16) :: hexDigitChar (b % 16) :: rest) = _
  cases hres : pctTokenize rest with
  | none =>
    rw [pctTokenize.eq_def]
    simp [h1, h2, hres]
  | some ts =>
    rw [pctTokenize.eq_def]
    simp [h1, h2, hres, hbb]

/-- Helper: tokenizing a literal (non-`%`) character passes it through. -/
theorem pctTokenize_raw (c : Char) (hc : ¬ c = '%') (rest : List Char) :
    pctTokenize (c :: rest) = (pctTokenize rest).map (fun ts => PctToken.raw c :: ts) := by
  cases hres : pctTokenize rest with
  | none =>
    rw [pctTokenize.eq_def]
    simp [hc, hres]
  | some ts =>
    rw [pctTokenize.eq_def]
    simp [hc, hres]

/-- Helper: every UTF-8 byte of a scalar value fits in one byte. -/
theorem utf8Bytes_lt (n : ℕ) (hn : n < 0x110000) : ∀ b ∈ utf8Bytes n, b < 256 := by
  intro b hb
  unfold utf8Bytes at hb
  split_ifs at hb with h1 h2 h3
  · simp at hb
    omega
  · simp at hb
    rcases hb with rfl | rfl <;> omega
  · simp at hb
    rcases hb with rfl | rfl | rfl <;> omega
  · simp at hb
    rcases hb with rfl | rfl | rfl | rfl <;> omega

/-- Helper: tokenizing a run of percent escapes recovers the byte list. -/
theorem pctTokenize_bytes (bs : List ℕ) (hbs : ∀ b ∈ bs, b < 256) (rest : List Char) :
    pctTokenize ((bs.map pctEncodeByte).flatten ++ rest) =
      (pctTokenize rest).map (fun ts => bs.map PctToken.byte ++ ts) := by
  induction bs with
  | nil => cases hres : pctTokenize rest <;> simp [hres]
  | cons b bs ih =>
    simp only [List.map_cons, List.flatten_cons, List.append_assoc]
    rw [pctTokenize_encByte b (hbs b (by simp)) _,
      ih (fun x hx => hbs x (by simp [hx]))]
    cases hres : pctTokenize rest <;> simp [hres]

/-- Helper: tokenizing one encoded character yields its token run. -/
theorem pctTokenize_encodeChar (c : Char) (rest : List Char) :
    pctTokenize (encodeChar c ++ rest) =
      (pctTokenize rest).map (fun ts => tokensOfChar c ++ ts) := by
  unfold encodeChar tokensOfChar
  by_cases hc : isUnreservedChar c = true
  · rw [if_pos hc, if_pos hc]
    have hcp : ¬ c = '%' := by
      intro h
      subst h
      exact absurd hc (by decide)
    show pctTokenize (c :: rest) = _
    rw [pctTokenize_raw c hcp rest]
    cases hres : pctTokenize rest <;> simp [hres]
  · rw [if_neg hc, if_neg hc]
    have hval : c.toNat < 0xd800 ∨ (0xdfff < c.toNat ∧ c.toNat < 0x110000) := c.valid
    have hlt : c.toNat < 0x110000 := by rcases hval with h | h <;> omega
    exact pctTokenize_bytes (utf8Bytes c.toNat) (utf8Bytes_lt c.toNat hlt) rest

/-- Helper: assembling a raw token passes the character through. -/
theorem pctAssemble_raw (c : Char) (ts : List PctToken) :
    pctAssemble (PctToken.raw c :: ts) = (pctAssemble ts).map (fun cs => c :: cs) := by
  unfold pctAssemble
  cases hres : pctAssembleAux ts 0 0 0 <;> simp [pctAssembleAux, hres]

/-- Helper: assembling the UTF-8 byte tokens of a character recovers it. -/
theorem pctAssemble_utf8 (c : Char) (ts : List PctToken) :
    pctAssemble ((utf8Bytes c.toNat).map PctToken.byte ++ ts) =
      (pctAssemble ts).map (fun cs => c :: cs) := by
  have hval : c.toNat < 0xd800 ∨ (0xdfff < c.toNat ∧ c.toNat < 0x110000) := c.valid
  unfold pctAssemble
  by_cases h1 : c.toNat < 0x80
  · have hb : utf8Bytes c.toNat = [c.toNat] := by
      unfold utf8Bytes
      rw [if_pos h1]
    rw [hb]
    cases hres : pctAssembleAux ts 0 0 0 <;>
      simp [pctAssembleAux, h1, hres, Char.ofNat_toNat]
  · by_cases h2 : c.toNat < 0x800
    · have hb : utf8Bytes c.toNat = [0xC0 + c.toNat / 0x40, 0x80 + c.toNat % 0x40] := by
        unfold utf8Bytes
        rw [if_neg h1, if_pos h2]
      rw [hb]
      have hc1 : ¬ (0xC0 + c.toNat / 0x40) < 0x80 := by omega
      have hc2 : 0xC2 ≤ 0xC0 + c.toNat / 0x40 ∧ 0xC0 + c.toNat / 0x40 < 0xE0 := by
        constructor <;> omega
      have hcont : isContByte (0x80 + c.toNat % 0x40) = true := by
        simp only [isContByte, Bool.and_eq_true, decide_eq_true_eq]
        omega
      have hacc : c.toNat / 0x40 * 0x40 + c.toNat % 0x40 = c.toNat := by omega
      have hvalid : 0x80 ≤ c.toNat ∧ (c.toNat < 0xD800 ∨ 0xE000 ≤ c.toNat) ∧
          c.toNat < 0x110000 := by
        refine ⟨by omega, by omega, by omega⟩
      cases hres : pctAssembleAux ts 0 0 0 <;>
        simp [pctAssembleAux, hc1, hc2, hcont, hacc, hvalid, hres, Char.ofNat_toNat]
    · by_cases h3 : c.toNat < 0x10000
      · have hb : utf8Bytes c.toNat =
            [0xE0 + c.toNat / 0x1000, 0x80 + c.toNat / 0x40 % 0x40, 0x80 + c.toNat % 0x40] := by
          unfold utf8Bytes
          rw [if_neg h1, if_neg h2, if_pos h3]
        rw [hb]
        have hc1 : ¬ (0xE0 + c.toNat / 0x1000) < 0x80 := by omega
        have hc2 : ¬ (0xC2 ≤ 0xE0 + c.toNat / 0x1000 ∧ 0xE0 + c.toNat / 0x1000 < 0xE0) := by
          omega
        have hc3 : 0xE0 ≤ 0xE0 + c.toNat / 0x1000 ∧ 0xE0 + c.toNat / 0x1000 < 0xF0 := by
          constructor <;> omega
        have hcontA : isContByte (0x80 + c.toNat / 0x40 % 0x40) = true := by
          simp only [isContByte, Bool.and_eq_true, decide_eq_true_eq]
          omega
        have hcontB : isContByte (0x80 + c.toNat % 0x40) = true := by
          simp only [isContByte, Bool.and_eq_true, decide_eq_true_eq]
          omega
        have hacc : (c.toNat / 0x1000 * 0x40 + c.toNat / 0x40 % 0x40) * 0x40 +
            c.toNat % 0x40 = c.toNat := by omega
        have hsur : c.toNat < 0xD800 ∨ 0xE000 ≤ c.toNat := by
          rcases hval with h | h
          · exact Or.inl h
          · exact Or.inr (by omega)
        have hvalid : 0x800 ≤ c.toNat ∧ (c.toNat < 0xD800 ∨ 0xE000 ≤ c.toNat) ∧
            c.toNat < 0x110000 := by
          refine ⟨by omega, hsur, ?_⟩
          rcases hval with h | h <;> omega
        cases hres : pctAssembleAux ts 0 0 0 <;>
          simp [pctAssembleAux, hc1, hc2, hc3, hcontA, hcontB, hacc, hvalid, hres,
            Char.ofNat_toNat]
      · have hup : c.toNat < 0x110000 := by rcases hval with h | h <;> omega
        have hb : utf8Bytes c.toNat =
            [0xF0 + c.toNat / 0x40000, 0x80 + c.toNat / 0x1000 % 0x40,
              0x80 + c.toNat / 0x40 % 0x40, 0x80 + c.toNat % 0x40] := by
          unfold utf8Bytes
          rw [if_neg h1, if_neg h2, if_neg h3]
        rw [hb]
        have hc1 : ¬ (0xF0 + c.toNat / 0x40000) < 0x80 := by omega
        have hc2 : ¬ (0xC2 ≤ 0xF0 + c.toNat / 0x40000 ∧ 0xF0 + c.toNat / 0x40000 < 0xE0) := by
          omega
        have hc3 : ¬ (0xE0 ≤ 0xF0 + c.toNat / 0x40000 ∧ 0xF0 + c.toNat / 0x40000 < 0xF0) := by
          omega
        have hc4 : 0xF0 ≤ 0xF0 + c.toNat / 0x40000 ∧ 0xF0 + c.toNat / 0x40000 < 0xF5 := by
          constructor <;> omega
        have hcontA : isContByte (0x80 + c.toNat / 0x1000 % 0x40) = true := by
          simp only [isContByte, Bool.and_eq_true, decide_eq_true_eq]
          omega
        have hcontB : isContByte (0x80 + c.toNat / 0x40 % 0x40) = true := by
          simp only [isContByte, Bool.and_eq_true, decide_eq_true_eq]
          omega
        have hcontC : isContByte (0x80 + c.toNat % 0x40) = true := by
          simp only [isContByte, Bool.and_eq_true, decide_eq_true_eq]
          omega
        have hacc : ((c.toNat / 0x40000 * 0x40 + c.toNat / 0x1000 % 0x40) * 0x40 +
            c.toNat / 0x40 % 0x40) * 0x40 + c.toNat % 0x40 = c.toNat := by omega
        have hvalid : 0x10000 ≤ c.toNat ∧ (c.toNat < 0xD800 ∨ 0xE000 ≤ c.toNat) ∧
            c.toNat < 0x110000 := by
          refine ⟨by omega, Or.inr (by omega), hup⟩
        cases hres : pctAssembleAux ts 0 0 0 <;>
          simp [pctAssembleAux, hc1, hc2, hc3, hc4, hcontA, hcontB, hcontC, hacc, hvalid,
            hres, Char.ofNat_toNat]

/-- Helper: assembling the tokens of one encoded character recovers it. -/
theorem pctAssemble_tokensOfChar (c : Char) (ts : List PctToken) :
    pctAssemble (tokensOfChar c ++ ts) = (pctAssemble ts).map (fun cs => c :: cs) := by
  unfold tokensOfChar
  by_cases hc : isUnreservedChar c = true
  · rw [if_pos hc]
    exact pctAssemble_raw c ts
  · rw [if_neg hc]
    exact pctAssemble_utf8 c ts

/-- Helper: `decodeURIComponent` inverts `encodeURIComponent` on character
lists. -/
theorem decode_encode_list (l : List Char) :
    decodeURIComponentL ((l.map encodeChar).flatten) = some l := by
  have htok : pctTokenize ((l.map encodeChar).flatten) =
      some ((l.map tokensOfChar).flatten) := by
    induction l with
    | nil => rfl
    | cons c r ih =>
      simp only [List.map_cons, List.flatten_cons]
      rw [pctTokenize_encodeChar c _, ih]
      rfl
  have hasm : ∀ l2 : List Char, pctAssemble ((l2.map tokensOfChar).flatten) = some l2 := by
    intro l2
    induction l2 with
    | nil => rfl
    | cons c r ih =>
      simp only [List.map_cons, List.flatten_cons]
      rw [pctAssemble_tokensOfChar c _, ih]
      rfl
  unfold decodeURIComponentL
  rw [htok]
  exact hasm l

/-- Helper: hex digits are never URL separators. -/
theorem hexDigitChar_not_sep (m : ℕ) :
    ¬(hexDigitChar m = '/' ∨ hexDigitChar m = '?' ∨ hexDigitChar m = '#') := by
  unfold hexDigitChar
  split <;> decide

/-- Helper: unreserved characters are never URL separators. -/
theorem unreserved_not_sep (c : Char) (hc : isUnreservedChar c = true) :
    ¬(c = '/' ∨ c = '?' ∨ c = '#') := by
  rintro (rfl | rfl | rfl) <;> exact absurd hc (by decide)

/-- Helper: `encodeURIComponent` output never contains `/`, `?` or `#`. -/
theorem encodeURIComponent_no_sep (s : String) :
    ∀ c ∈ (encodeURIComponent s).data, ¬(c = '/' ∨ c = '?' ∨ c = '#') := by
  intro c hc
  have hc2 : c ∈ (s.data.map encodeChar).flatten := hc
  rw [List.mem_flatten] at hc2
  obtain ⟨l2, hl2, hcl2⟩ := hc2
  rw [List.mem_map] at hl2
  obtain ⟨x, hx, rfl⟩ := hl2
  unfold encodeChar at hcl2
  by_cases hux : isUnreservedChar x = true
  · rw [if_pos hux] at hcl2
    simp at hcl2
    subst hcl2
    exact unreserved_not_sep _ hux
  · rw [if_neg hux] at hcl2
    rw [List.mem_flatten] at hcl2
    obtain ⟨l3, hl3, hcl3⟩ := hcl2
    rw [List.mem_map] at hl3
    obtain ⟨b, hb, rfl⟩ := hl3
    unfold pctEncodeByte at hcl3
    simp at hcl3
    rcases hcl3 with rfl | rfl | rfl
    · decide
    · exact hexDigitChar_not_sep _
    · exact hexDigitChar_not_sep _

/-- Helper: `takeWhile` passes over a fully satisfying prefix. -/
theorem takeWhile_append_all (p : Char → Bool) (l r : List Char)
    (hl : ∀ c ∈ l, p c = true) : (l ++ r).takeWhile p = l ++ r.takeWhile p := by
  induction l with
  | nil => rfl
  | cons a l ih =>
    rw [List.cons_append, List.takeWhile_cons, if_pos (hl a (by simp)),
      ih (fun c hc => hl c (by simp [hc])), List.cons_append]

/-- Helper: `takeWhile` keeps a fully satisfying list. -/
theorem takeWhile_all_eq (p : Char → Bool) (l : List Char)
    (hl : ∀ c ∈ l, p c = true) : l.takeWhile p = l := by
  induction l with
  | nil => rfl
  | cons a l ih =>
    rw [List.takeWhile_cons, if_pos (hl a (by simp)), ih (fun c hc => hl c (by simp [hc]))]

/-- Helper: `takeWhile` stops at a failing head. -/
theorem takeWhile_cons_false (p : Char → Bool) (a : Char) (l : List Char)
    (ha : p a = false) : (a :: l).takeWhile p = [] := by
  rw [List.takeWhile_cons, if_neg (by simp [ha])]

/-- Helper: rewriting one step of `splitOnChar`. -/
theorem splitOnChar_cons_eq (sep c : Char) (rest : List Char) (a : List Char)
    (t : List (List Char)) (hs : splitOnChar sep rest = a :: t) :
    splitOnChar sep (c :: rest) = if c = sep then [] :: a :: t else (c :: a) :: t := by
  unfold splitOnChar
  rw [hs]

/-- Helper: `splitOnChar` never returns the empty list. -/
theorem splitOnChar_ne_nil (sep : Char) (l : List Char) : splitOnChar sep l ≠ [] := by
  cases l with
  | nil => simp [splitOnChar]
  | cons c rest =>
    cases hs : splitOnChar sep rest with
    | nil =>
      unfold splitOnChar
      rw [hs]
      simp
    | cons a t =>
      rw [splitOnChar_cons_eq sep c rest a t hs]
      by_cases hc : c = sep <;> simp [hc]

/-- Helper: splitting a separator-free list is the identity. -/
theorem splitOnChar_no_sep (sep : Char) (l : List Char) (h : ∀ c ∈ l, ¬ c = sep) :
    splitOnChar sep l = [l] := by
  induction l with
  | nil => rfl
  | cons c rest ih =>
    have h1 := ih (fun x hx => h x (by simp [hx]))
    rw [splitOnChar_cons_eq sep c rest rest [] h1, if_neg (h c (by simp))]

/-- Helper: a list containing the separator splits into at least two parts. -/
theorem two_le_splitOnChar (sep : Char) (l : List Char) (h : sep ∈ l) :
    2 ≤ (splitOnChar sep l).length := by
  induction l with
  | nil => simp at h
  | cons c rest ih =>
    cases hs : splitOnChar sep rest with
    | nil => exact absurd hs (splitOnChar_ne_nil sep rest)
    | cons a t =>
      rw [splitOnChar_cons_eq sep c rest a t hs]
      by_cases hc : c = sep
      · rw [if_pos hc]
        simp
      · rw [if_neg hc]
        have hmem : sep ∈ rest := by
          rcases List.mem_cons.mp h with h1 | h1
          · exact absurd h1.symm hc
          · exact h1
        have h2 := ih hmem
        rw [hs] at h2
        simp at h2 ⊢
        omega

/-- Helper: the last part of a split is the suffix after the last
separator. -/
theorem getLast?_splitOnChar_append (sep : Char) (l ys : List Char)
    (hys : ∀ c ∈ ys, ¬ c = sep) :
    (splitOnChar sep (l ++ sep :: ys)).getLast? = some ys := by
  induction l with
  | nil =>
    rw [show (([] : List Char) ++ sep :: ys) = sep :: ys from rfl,
      splitOnChar_cons_eq sep sep ys ys [] (splitOnChar_no_sep sep ys hys), if_pos rfl]
    rfl
  | cons c l ih =>
    cases hs : splitOnChar sep (l ++ sep :: ys) with
    | nil => exact absurd hs (splitOnChar_ne_nil _ _)
    | cons a t =>
      have hlen : 2 ≤ (a :: t).length := by
        rw [← hs]
        exact two_le_splitOnChar sep _ (by simp)
      obtain ⟨t1, t2, rfl⟩ : ∃ t1 t2, t = t1 :: t2 := by
        cases t with
        | nil => simp at hlen
        | cons t1 t2 => exact ⟨t1, t2, rfl⟩
      have hih := ih
      rw [hs] at hih
      rw [show ((c :: l) ++ sep :: ys) = c :: (l ++ sep :: ys) from rfl,
        splitOnChar_cons_eq sep c _ a (t1 :: t2) hs]
      by_cases hc : c = sep
      · rw [if_pos hc]
        exact hih
      · rw [if_neg hc]
        exact hih

/-- Helper: `parseURL` on an invite-shaped link returns the `/join/...`
pathname. -/
theorem parseURL_invite (scheme host enc : List Char)
    (hs : scheme ≠ []) (hsalpha : ∀ c ∈ scheme, c.isAlpha = true)
    (hhost : host ≠ [])
    (hhostok : ∀ c ∈ host, (c == '/' || c == '?' || c == '#') = false)
    (hencok : ∀ c ∈ enc, (c == '/' || c == '?' || c == '#') = false) :
    parseURL (scheme ++ ':' :: '/' :: '/' ::
        (host ++ '/' :: 'j' :: 'o' :: 'i' :: 'n' :: '/' :: enc)) =
      some ('/' :: 'j' :: 'o' :: 'i' :: 'n' :: '/' :: enc) := by
  have htw : (scheme ++ ':' :: '/' :: '/' ::
      (host ++ '/' :: 'j' :: 'o' :: 'i' :: 'n' :: '/' :: enc)).takeWhile
        (fun c => c.isAlpha) = scheme := by
    rw [takeWhile_append_all _ _ _ hsalpha, takeWhile_cons_false _ _ _ (by decide),
      List.append_nil]
  have hse : scheme.isEmpty = false := by
    cases scheme
    · exact absurd rfl hs
    · rfl
  have htw2 : (host ++ '/' :: 'j' :: 'o' :: 'i' :: 'n' :: '/' :: enc).takeWhile
      (fun c => !(c == '/' || c == '?' || c == '#')) = host := by
    rw [takeWhile_append_all _ _ _ (fun c hc => by rw [hhostok c hc]; rfl),
      takeWhile_cons_false _ _ _ (by decide), List.append_nil]
  have hhe : host.isEmpty = false := by
    cases host
    · exact absurd rfl hhost
    · rfl
  have htw3 : ('/' :: 'j' :: 'o' :: 'i' :: 'n' :: '/' :: enc).takeWhile
      (fun c => !(c == '?' || c == '#')) = '/' :: 'j' :: 'o' :: 'i' :: 'n' :: '/' :: enc := by
    apply takeWhile_all_eq
    intro c hc
    simp only [List.mem_cons] at hc
    rcases hc with rfl | rfl | rfl | rfl | rfl | rfl | hc
    · decide
    · decide
    · decide
    · decide
    · decide
    · decide
    · have h := hencok c hc
      have h2 : (c == '?' || c == '#') = false := by
        cases hq : (c == '?') <;> cases hh : (c == '#') <;>
          simp [hq, hh] at h ⊢
      rw [h2]
      rfl
  simp only [parseURL]
  rw [htw, List.drop_left, hse]
  simp only [Bool.false_eq_true, if_false]
  rw [htw2, List.drop_left, hhe]
  simp only [Bool.false_eq_true, if_false]
  rw [htw3]
  rfl

/-- Claim C8: `extractPuzzleId` is total (the embedding returns `none` where
the code catches and returns `null`, so no exception escapes) and yields
`none` whenever the URL fails to parse; `isValidInviteLink` is `true` exactly
when the input parses as a URL whose pathname starts with `/join/` and an id
is extractable from the link. -/
theorem invite_link_validation (s : String) :
    (parseURL s.data = none → extractPuzzleId s = none) ∧
    (isValidInviteLink s = true ↔
      ∃ pathname, parseURL s.data = some pathname ∧
        "/join/".data.isPrefixOf pathname = true ∧ (extractPuzzleId s).isSome = true) := by
  constructor
  · intro h
    unfold extractPuzzleId
    rw [h]
  · unfold isValidInviteLink
    cases hp : parseURL s.data with
    | none =>
      simp
    | some pathname =>
      simp only [Bool.and_eq_true]
      constructor
      · rintro ⟨h1, h2⟩
        exact ⟨pathname, rfl, h1, h2⟩
      · rintro ⟨p2, hp2, h1, h2⟩
        injection hp2 with he
        subst he
        exact ⟨h1, h2⟩

/-- Claim C8 witness: a malformed URL makes extraction return `none` (and the
link invalid). -/
theorem invite_link_validation_witness :
    extractPuzzleId "not a url" = none ∧ isValidInviteLink "not a url" = false :=
  ⟨(invite_link_validation "not a url").1 rfl, rfl⟩

/-- Claim C9: extracting the id from a generated invite link returns the
original id, for every id string and every well-formed origin
(`scheme://host` with a nonempty alphabetic scheme and a nonempty host free
of `/`, `?`, `#`). -/
theorem extract_generate_roundtrip (scheme host : List Char) (pid : String)
    (hs : scheme ≠ []) (hsalpha : ∀ c ∈ scheme, c.isAlpha = true)
    (hhost : host ≠ [])
    (hhostok : ∀ c ∈ host, (c == '/' || c == '?' || c == '#') = false) :
    extractPuzzleId
      (generateInviteLink (String.mk (scheme ++ ':' :: '/' :: '/' :: host)) pid) =
      some pid := by
  have hencok : ∀ c ∈ (encodeURIComponent pid).data,
      (c == '/' || c == '?' || c == '#') = false := by
    intro c hc
    have h := encodeURIComponent_no_sep pid c hc
    cases h1 : (c == '/') with
    | true => exact absurd (Or.inl (eq_of_beq h1)) h
    | false =>
      cases h2 : (c == '?') with
      | true => exact absurd (Or.inr (Or.inl (eq_of_beq h2))) h
      | false =>
        cases h3 : (c == '#') with
        | true => exact absurd (Or.inr (Or.inr (eq_of_beq h3))) h
        | false => simp [h1, h2, h3]
  have hdata : (generateInviteLink (String.mk (scheme ++ ':' :: '/' :: '/' :: host)) pid).data =
      scheme ++ ':' :: '/' :: '/' ::
        (host ++ '/' :: 'j' :: 'o' :: 'i' :: 'n' :: '/' :: (encodeURIComponent pid).data) := by
    show ((scheme ++ ':' :: '/' :: '/' :: host) ++
        ('/' :: 'j' :: 'o' :: 'i' :: 'n' :: '/' :: [])) ++ (encodeURIComponent pid).data = _
    simp [List.append_assoc]
  have hns : ∀ c ∈ (encodeURIComponent pid).data, ¬ c = '/' := by
    intro c hc hceq
    subst hceq
    have h := hencok '/' hc
    simp at h
  unfold extractPuzzleId
  rw [hdata,
    parseURL_invite scheme host (encodeURIComponent pid).data hs hsalpha hhost hhostok hencok]
  have hsplit : (splitOnChar '/'
      ('/' :: 'j' :: 'o' :: 'i' :: 'n' :: '/' :: (encodeURIComponent pid).data)).getLastD [] =
      (encodeURIComponent pid).data := by
    rw [List.getLastD_eq_getLast?,
      show ('/' :: 'j' :: 'o' :: 'i' :: 'n' :: '/' :: (encodeURIComponent pid).data :
          List Char) =
        ('/' :: 'j' :: 'o' :: 'i' :: 'n' :: []) ++ '/' :: (encodeURIComponent pid).data
        from rfl,
      getLast?_splitOnChar_append '/' _ _ hns]
    rfl
  show (match decodeURIComponentL ((splitOnChar '/'
      ('/' :: 'j' :: 'o' :: 'i' :: 'n' :: '/' :: (encodeURIComponent pid).data)).getLastD [])
      with
    | none => none
    | some cs => some (String.mk cs)) = some pid
  rw [hsplit,
    show decodeURIComponentL ((encodeURIComponent pid).data) = some pid.data
      from decode_encode_list pid.data]

/-- Claim C9 witness: the documented round trip at a concrete origin and id,
`extractPuzzleId (generateInviteLink origin "abc123") = some "abc123"`. -/
theorem extract_generate_roundtrip_witness :
    extractPuzzleId (generateInviteLink "http://localhost:5173" "abc123") =
      some "abc123" := by
  have h := extract_generate_roundtrip "http".data "localhost:5173".data "abc123"
    (by decide) (by decide) (by decide) (by decide)
  have he : String.mk ("http".data ++ ':' :: '/' :: '/' :: "localhost:5173".data) =
      "http://localhost:5173" := by decide
  rw [he] at h
  exact h
